import Mathlib

/-!
# User history search component

A shallow embedding of the Lightning web component `userHistorySearch.js`:
the record transformation applied to a search response, the client-side
sort, the CSV export and the search session that drives them.

Strings are sequences of Unicode scalar values.  Row fields are text; the
values that reach `formatTime` and `escapeCsvValue` may be of any JavaScript
shape and are represented by `JsVal`.
-/

namespace UserHistorySearch

/-! ## JavaScript values -/

/-- A JavaScript value as the component observes it.  A number is kept as
its truthiness and its string conversion, an object as its string
conversion, which is `none` when converting throws. -/
inductive JsVal where
  | undefined
  | null
  | bool (b : Bool)
  | num (nonzero : Bool) (text : String)
  | str (s : String)
  | obj (text : Option String)
  deriving DecidableEq, Repr

namespace JsVal

/-- ToBoolean: what `!value`, `value || d` and `value && e` test. -/
def truthy : JsVal → Bool
  | undefined => false
  | null => false
  | bool b => b
  | num nz _ => nz
  | str s => s != ""
  | obj _ => true

/-- The conversion `String(value)`; `none` when it throws. -/
def text : JsVal → Option String
  | undefined => some "undefined"
  | null => some "null"
  | bool b => some (if b then "true" else "false")
  | num _ t => some t
  | str s => some s
  | obj t => t

end JsVal

/-! ## CSV escaping -/

/-- The replacement `stringValue.replace(/"/g, '""')` on the characters of
the string. -/
def doubleQuotes : List Char → List Char
  | [] => []
  | c :: cs => if c = '"' then '"' :: '"' :: doubleQuotes cs else c :: doubleQuotes cs

/-- The test `includes(',') || includes('"') || includes('\n')`. -/
def needsQuoting (s : String) : Bool :=
  s.data.contains ',' || s.data.contains '"' || s.data.contains '\n'

/-- The method `escapeCsvValue(value)`; `none` when `String(value)` throws. -/
def escapeCsvValue (value : JsVal) : Option String :=
  if !value.truthy then some ""
  else
    match value.text with
    | none => none
    | some stringValue =>
      if needsQuoting stringValue then
        some ("\"" ++ String.mk (doubleQuotes stringValue.data) ++ "\"")
      else
        some stringValue

/-! ## String comparison -/

/-- The UTF-16 code units of one character. -/
def utf16Units (c : Char) : List Nat :=
  if c.toNat < 0x10000 then [c.toNat]
  else [0xD800 + (c.toNat - 0x10000) / 0x400, 0xDC00 + (c.toNat - 0x10000) % 0x400]

/-- The UTF-16 code units of a string, the sequence JavaScript compares. -/
def utf16 : List Char → List Nat
  | [] => []
  | c :: cs => utf16Units c ++ utf16 cs

/-- Lexicographic order on code unit sequences. -/
def unitsLt : List Nat → List Nat → Bool
  | _, [] => false
  | [], _ :: _ => true
  | a :: as, b :: bs => if a < b then true else if b < a then false else unitsLt as bs

/-- The relation `a < b` of JavaScript on two strings. -/
def jsStrLt (a b : String) : Bool := unitsLt (utf16 a.data) (utf16 b.data)

/-- The relation `a > b` of JavaScript on two strings. -/
def jsStrGt (a b : String) : Bool := jsStrLt b a

/-! ## Dates -/

/-- The value of a decimal digit. -/
def digitVal (c : Char) : Option Nat :=
  if 48 ≤ c.toNat ∧ c.toNat ≤ 57 then some (c.toNat - 48) else none

/-- Leap years of the proleptic Gregorian calendar. -/
def isLeap (y : Nat) : Bool := y % 4 == 0 && (y % 100 != 0 || y % 400 == 0)

/-- Number of days of month `m` (1 to 12) in year `y`; 0 for any other `m`. -/
def daysInMonth (y m : Nat) : Nat :=
  match m with
  | 1 => 31 | 2 => if isLeap y then 29 else 28 | 3 => 31 | 4 => 30 | 5 => 31 | 6 => 30
  | 7 => 31 | 8 => 31 | 9 => 30 | 10 => 31 | 11 => 30 | 12 => 31
  | _ => 0

/-- Days of the year before the first of month `m`. -/
def daysBeforeMonth (y m : Nat) : Nat :=
  match m with
  | 0 => 0
  | k + 1 => daysBeforeMonth y k + daysInMonth y k

/-- ECMAScript DayFromYear: the day number of 1 January of year `y`,
counted from 1 January 1970. -/
def dayFromYear (y : Nat) : Int :=
  365 * ((y : Int) - 1970) + ((y : Int) - 1969) / 4 - ((y : Int) - 1901) / 100
    + ((y : Int) - 1601) / 400

/-- A calendar date: year, month, day. -/
structure CalendarDate where
  year : Nat
  month : Nat
  day : Nat
  deriving DecidableEq, Repr

/-- The date-only form `YYYY-MM-DD` of the ECMAScript date-time format,
read only when it names a day of the calendar. -/
def isoDate (s : String) : Option CalendarDate :=
  match s.data with
  | [y1, y2, y3, y4, '-', m1, m2, '-', d1, d2] =>
    match digitVal y1, digitVal y2, digitVal y3, digitVal y4,
          digitVal m1, digitVal m2, digitVal d1, digitVal d2 with
    | some a, some b, some c, some d, some e, some f, some g, some h =>
      let y := 1000 * a + 100 * b + 10 * c + d
      let m := 10 * e + f
      let dd := 10 * g + h
      if 1 ≤ m ∧ m ≤ 12 ∧ 1 ≤ dd ∧ dd ≤ daysInMonth y m then some ⟨y, m, dd⟩ else none
    | _, _, _, _, _, _, _, _ => none
  | _ => none

/-- The time value, in milliseconds since the epoch, of midnight UTC at the
start of a calendar date. -/
def timeValue (d : CalendarDate) : Int :=
  86400000 * (dayFromYear d.year + (daysBeforeMonth d.year d.month : Int) + (d.day : Int) - 1)

/-- The time value of `new Date(s)` for a string `s`; `none` is NaN, an
Invalid Date.  A calendar date in date-only form is midnight UTC of that day.
Every other string is left to `legacy`, the parsing that ECMAScript leaves to
the implementation. -/
def dateParse (legacy : String → Option Int) (s : String) : Option Int :=
  match isoDate s with
  | some d => some (timeValue d)
  | none => legacy s

/-- Calendar order on dates. -/
def CalendarDate.lt (a b : CalendarDate) : Prop :=
  a.year < b.year ∨ (a.year = b.year ∧ (a.month < b.month ∨ (a.month = b.month ∧ a.day < b.day)))

instance CalendarDate.decidableLt (a b : CalendarDate) : Decidable (a.lt b) := by
  unfold CalendarDate.lt
  exact inferInstance

/-! ## Records and rows -/

/-- A record of the search response.  The optional text fields are `none`
when absent (`undefined` or `null`); `timeChanged` may have any shape. -/
structure RawHistoryRecord where
  recordId : String
  userId : String
  userName : Option String
  changedField : Option String
  oldValue : Option String
  newValue : Option String
  changedBy : String
  changedByName : Option String
  dateChanged : String
  timeChanged : JsVal
  deriving DecidableEq, Repr

/-- A row of the result table. -/
structure HistoryRow where
  recordId : String
  userId : String
  userName : String
  changedField : String
  oldValue : String
  newValue : String
  changedBy : String
  changedByName : String
  dateChanged : String
  timeChanged : String
  deriving DecidableEq, Repr

/-- The expression `value || fallback` on an optional text value. -/
def orElse (value : Option String) (fallback : String) : String :=
  match value with
  | some s => if s != "" then s else fallback
  | none => fallback

/-- The method `formatTime(timeValue)`. -/
def formatTime (timeValue : JsVal) : String :=
  if !timeValue.truthy then ""
  else
    match timeValue with
    | .str s => s
    | v =>
      match v.text with
      | some t => t
      | none => ""

/-- The callback of `result.map` in `searchHistory`. -/
def transformRecord (record : RawHistoryRecord) : HistoryRow where
  recordId := record.recordId
  userId := record.userId
  userName := orElse record.userName "Unknown User"
  changedField := orElse record.changedField "Unknown Field"
  oldValue := orElse record.oldValue ""
  newValue := orElse record.newValue ""
  changedBy := record.changedBy
  changedByName := orElse record.changedByName "Unknown User"
  dateChanged := record.dateChanged
  timeChanged := formatTime record.timeChanged

/-! ## Sorting -/

/-- Property access `row[column]`: `none` is `undefined`, for a name that is
not a property of the row. -/
def HistoryRow.get (row : HistoryRow) (column : String) : Option String :=
  if column = "recordId" then some row.recordId
  else if column = "userId" then some row.userId
  else if column = "userName" then some row.userName
  else if column = "changedField" then some row.changedField
  else if column = "oldValue" then some row.oldValue
  else if column = "newValue" then some row.newValue
  else if column = "changedBy" then some row.changedBy
  else if column = "changedByName" then some row.changedByName
  else if column = "dateChanged" then some row.dateChanged
  else if column = "timeChanged" then some row.timeChanged
  else none

/-- The operand the comparator compares: a string, or the time value of a
Date, `none` being NaN. -/
inductive SortKey where
  | text (s : String)
  | date (t : Option Int)
  deriving DecidableEq, Repr

/-- The relation `aVal > bVal`.  A comparison with NaN is false. -/
def SortKey.gt : SortKey → SortKey → Bool
  | .text a, .text b => jsStrGt a b
  | .date (some a), .date (some b) => decide (b < a)
  | _, _ => false

/-- The relation `aVal < bVal`.  A comparison with NaN is false. -/
def SortKey.lt : SortKey → SortKey → Bool
  | .text a, .text b => jsStrLt a b
  | .date (some a), .date (some b) => decide (a < b)
  | _, _ => false

/-- The value `aVal` of the comparator: `row[sortedBy] || ''`, replaced by
`new Date(aVal)` when the column is `dateChanged`. -/
def sortKey (legacy : String → Option Int) (sortedBy : String) (row : HistoryRow) : SortKey :=
  let aVal := orElse (row.get sortedBy) ""
  if sortedBy = "dateChanged" then .date (dateParse legacy aVal) else .text aVal

/-- The comparator passed to `sort` in `handleSort`. -/
def compareRows (legacy : String → Option Int) (sortedBy sortDirection : String)
    (a b : HistoryRow) : Int :=
  let aVal := sortKey legacy sortedBy a
  let bVal := sortKey legacy sortedBy b
  if sortDirection = "asc" then
    if aVal.gt bVal then 1 else -1
  else
    if aVal.lt bVal then 1 else -1

/-- Insertion of `x` before the first element it does not follow. -/
def insertOrdered {α : Type} (cmp : α → α → Int) (x : α) : List α → List α
  | [] => [x]
  | y :: ys => if cmp x y ≤ 0 then x :: y :: ys else y :: insertOrdered cmp x ys

/-- The platform method `Array.prototype.sort(cmp)`, as a stable insertion
sort: an element moves behind another only when the comparator returns a
positive number for the pair. -/
def arraySort {α : Type} (cmp : α → α → Int) : List α → List α
  | [] => []
  | x :: xs => insertOrdered cmp x (arraySort cmp xs)

/-! ## CSV text -/

/-- The method `join(',')` on an array of strings. -/
def joinComma : List String → String
  | [] => ""
  | [x] => x
  | x :: y :: rest => x ++ "," ++ joinComma (y :: rest)

/-- The column titles of the export. -/
def headers : List String :=
  ["User", "Field Changed", "Old Value", "New Value", "Changed By", "Date Changed",
   "Time Changed"]

/-- The array `csvRow` built for one row, joined by commas; `none` when an
escape throws. -/
def csvRow (row : HistoryRow) : Option String :=
  match escapeCsvValue (.str row.userName), escapeCsvValue (.str row.changedField),
        escapeCsvValue (.str row.oldValue), escapeCsvValue (.str row.newValue),
        escapeCsvValue (.str row.changedByName) with
  | some a, some b, some c, some d, some e =>
    some (joinComma [a, b, c, d, e, row.dateChanged, row.timeChanged])
  | _, _, _, _, _ => none

/-- The loop `searchResults.forEach(...)` appending one line per row to
`csvContent`. -/
def appendRows (csvContent : String) : List HistoryRow → Option String
  | [] => some csvContent
  | row :: rest =>
    match csvRow row with
    | some line => appendRows (csvContent ++ line ++ "\n") rest
    | none => none

/-- The CSV content `exportResults` builds for the rows. -/
def csvContent (rows : List HistoryRow) : Option String :=
  appendRows (joinComma headers ++ "\n") rows

/-! ## A CSV reader -/

/-- Where a CSV reader stands. -/
inductive CsvState where
  | recordStart
  | fieldStart
  | unquoted
  | quoted
  | quoteSeen
  deriving DecidableEq, Repr

/-- A reader of CSV text after RFC 4180, records ending in a line feed:
`field` is the field being read, `record` the fields of the record being read
and `done` the records read.  Quoted fields may hold commas, line feeds and
doubled quotes; a quote inside an unquoted field, text after a closing quote
and an unclosed quote are errors. -/
def parseCsvFrom (st : CsvState) (field : List Char) (record : List String)
    (done : List (List String)) : List Char → Option (List (List String))
  | [] =>
    match st with
    | .recordStart => some done
    | .quoted => none
    | _ => some (done ++ [record ++ [String.mk field]])
  | c :: cs =>
    match st with
    | .quoted =>
      if c = '"' then parseCsvFrom .quoteSeen field record done cs
      else parseCsvFrom .quoted (field ++ [c]) record done cs
    | .quoteSeen =>
      if c = '"' then parseCsvFrom .quoted (field ++ [c]) record done cs
      else if c = ',' then parseCsvFrom .fieldStart [] (record ++ [String.mk field]) done cs
      else if c = '\n' then
        parseCsvFrom .recordStart [] [] (done ++ [record ++ [String.mk field]]) cs
      else none
    | .unquoted =>
      if c = '"' then none
      else if c = ',' then parseCsvFrom .fieldStart [] (record ++ [String.mk field]) done cs
      else if c = '\n' then
        parseCsvFrom .recordStart [] [] (done ++ [record ++ [String.mk field]]) cs
      else parseCsvFrom .unquoted (field ++ [c]) record done cs
    | _ =>
      if c = '"' then parseCsvFrom .quoted [] record done cs
      else if c = ',' then parseCsvFrom .fieldStart [] (record ++ [""]) done cs
      else if c = '\n' then parseCsvFrom .recordStart [] [] (done ++ [record ++ [""]]) cs
      else parseCsvFrom .unquoted [c] record done cs

/-- The records of a CSV text; `none` when the text is not well formed. -/
def parseCsv (csv : String) : Option (List (List String)) :=
  parseCsvFrom .recordStart [] [] [] csv.data

/-- The seven exported values of a row, in column order. -/
def HistoryRow.exported (row : HistoryRow) : List String :=
  [row.userName, row.changedField, row.oldValue, row.newValue, row.changedByName,
   row.dateChanged, row.timeChanged]

/-- Un-quoting of a CSV field: halving of doubled quotes. -/
def halveQuotes : List Char → List Char
  | [] => []
  | [c] => [c]
  | c :: d :: cs => if c = '"' ∧ d = '"' then '"' :: halveQuotes cs else c :: halveQuotes (d :: cs)

/-- Un-quoting of a CSV field: a field that starts and ends with a quote
loses both and has its doubled quotes halved; any other field is itself. -/
def unquote (s : String) : String :=
  match s.data with
  | [] => s
  | c :: cs =>
    if c = '"' ∧ cs.getLast? = some '"' then String.mk (halveQuotes cs.dropLast) else s

/-! ## The search session -/

/-- A toast raised through `showToast`. -/
structure Toast where
  title : String
  message : String
  variant : String
  deriving DecidableEq, Repr

/-- The argument of the remote call `searchHistoryForLWC`. -/
structure Filters where
  targetUserId : String
  changedByUserId : String
  fieldName : String
  startDateStr : String
  endDateStr : String
  limitRecords : JsVal
  deriving DecidableEq, Repr

/-- An entry of a dropdown. -/
structure ComboOption where
  label : String
  value : String
  deriving DecidableEq, Repr

/-- The property `body` of a rejection, when it is truthy: its `message`,
`none` when absent. -/
structure ErrorBody where
  message : Option String
  deriving DecidableEq, Repr

/-- The error object a rejected remote call carries: `body` is `none` when
absent or falsy, `message` is `none` when absent. -/
structure Rejection where
  body : Option ErrorBody
  message : Option String
  deriving DecidableEq, Repr

/-- How the remote call settles. -/
inductive Outcome where
  | resolved (result : List RawHistoryRecord)
  | rejected (error : Rejection)
  deriving DecidableEq, Repr

/-- The component.  Row arrays live in `arrays` and are named by their
index, so that `searchResults` is a reference, as in the program; `toasts`
and `calls` record the toasts raised and the remote calls made. -/
structure Session where
  arrays : List (List HistoryRow)
  searchResults : Nat
  userOptions : List ComboOption
  fieldOptions : List ComboOption
  isSearching : Bool
  errorMessage : String
  selectedTargetUser : String
  selectedChangedByUser : String
  selectedField : String
  startDate : String
  endDate : String
  recordLimit : JsVal
  sortedBy : String
  sortDirection : String
  hasSearched : Bool
  toasts : List Toast
  calls : List Filters
  deriving DecidableEq, Repr

/-- The component as its field initialisers leave it. -/
def Session.initial : Session where
  arrays := [[]]
  searchResults := 0
  userOptions := []
  fieldOptions := []
  isSearching := false
  errorMessage := ""
  selectedTargetUser := ""
  selectedChangedByUser := ""
  selectedField := ""
  startDate := ""
  endDate := ""
  recordLimit := .num true "100"
  sortedBy := "dateChanged"
  sortDirection := "asc"
  hasSearched := false
  toasts := []
  calls := []

/-- The rows of the array `searchResults` refers to. -/
def Session.rows (s : Session) : List HistoryRow := s.arrays.getD s.searchResults []

/-- Assignment of a new array to `searchResults`. -/
def Session.assignRows (s : Session) (rows : List HistoryRow) : Session :=
  { s with arrays := s.arrays ++ [rows], searchResults := s.arrays.length }

/-- The method `showToast(title, message, variant)`. -/
def showToast (s : Session) (title message variant : String) : Session :=
  { s with toasts := s.toasts ++ [⟨title, message, variant⟩] }

/-- The method `showError(message)`. -/
def showError (s : Session) (message : String) : Session :=
  showToast { s with errorMessage := message } "Error" message "error"

/-- The filter object `searchHistory` passes to the remote call. -/
def Session.filters (s : Session) : Filters where
  targetUserId := s.selectedTargetUser
  changedByUserId := s.selectedChangedByUser
  fieldName := s.selectedField
  startDateStr := s.startDate
  endDateStr := s.endDate
  limitRecords := s.recordLimit

/-- The date range test of `searchHistory`:
`startDate && endDate && startDate > endDate`. -/
def Session.dateRangeInvalid (s : Session) : Bool :=
  s.startDate != "" && s.endDate != "" && jsStrGt s.startDate s.endDate

/-- The `then` callback of `searchHistory`. -/
def onResolved (s : Session) (result : List RawHistoryRecord) : Session :=
  let s1 := s.assignRows (result.map transformRecord)
  let s2 := { s1 with isSearching := false }
  if s2.rows.length = 0 then
    showToast s2 "No Results" "No history records found matching your criteria." "info"
  else
    showToast s2 "Success" ("Found " ++ toString s2.rows.length ++ " history records.") "success"

/-- The message the `catch` callback of `searchHistory` derives from the
rejection. -/
def rejectionMessage (error : Rejection) : String :=
  match error.body with
  | some ⟨some m⟩ => if m != "" then m else orElse error.message "Unknown error occurred"
  | _ => orElse error.message "Unknown error occurred"

/-- The `catch` callback of `searchHistory`. -/
def onRejected (s : Session) (error : Rejection) : Session :=
  let s1 := { s with isSearching := false }
  showError s1 ("Search failed: " ++ rejectionMessage error)

/-- The method `searchHistory()`, run until the remote call, if made, has
settled as `remote` says. -/
def searchHistory (s : Session) (remote : Filters → Outcome) : Session :=
  let s1 := { s with isSearching := true, errorMessage := "", hasSearched := true }
  if s1.dateRangeInvalid then
    { showError s1 "Start date cannot be after end date" with isSearching := false }
  else
    let s2 := { s1 with calls := s1.calls ++ [s1.filters] }
    match remote s1.filters with
    | .resolved result => onResolved s2 result
    | .rejected error => onRejected s2 error

/-- The method `clearFilters()`. -/
def clearFilters (s : Session) : Session :=
  let s1 := { s with selectedTargetUser := "", selectedChangedByUser := "", selectedField := "",
                     startDate := "", endDate := "", recordLimit := .num true "100" }
  { s1.assignRows [] with errorMessage := "", hasSearched := false }

/-- The detail of a sort event. -/
structure SortEvent where
  fieldName : String
  sortDirection : String
  deriving DecidableEq, Repr

/-- The method `handleSort(event)`: the spread copy is a new array, sorted
in place and then assigned to `searchResults`. -/
def handleSort (legacy : String → Option Int) (s : Session) (event : SortEvent) : Session :=
  let s1 := { s with sortedBy := event.fieldName, sortDirection := event.sortDirection }
  let copy := s1.arrays.length
  let s2 := { s1 with arrays := s1.arrays ++ [s1.rows] }
  let sorted := arraySort (compareRows legacy s2.sortedBy s2.sortDirection) (s2.arrays.getD copy [])
  let s3 := { s2 with arrays := s2.arrays.set copy sorted }
  { s3 with searchResults := copy }

/-- The method `exportResults()`: the session afterwards and the CSV content
handed to the download, `none` when nothing is downloaded. -/
def exportResults (s : Session) : Session × Option String :=
  if s.rows.length = 0 then
    (showToast s "No Data" "No results to export." "warning", none)
  else
    match csvContent s.rows with
    | some csv => (showToast s "Success" "Results exported successfully." "success", some csv)
    | none => (s, none)

/-! ## Terms of the specification and sample data -/

/-- A date of the calendar with a four-digit year. -/
def CalendarDate.Valid (d : CalendarDate) : Prop :=
  d.year ≤ 9999 ∧ 1 ≤ d.month ∧ d.month ≤ 12 ∧ 1 ≤ d.day ∧ d.day ≤ daysInMonth d.year d.month

/-- Two strings that are calendar dates in the form `YYYY-MM-DD`, the
first an earlier day than the second. -/
def DateBefore (s t : String) : Prop :=
  match isoDate s, isoDate t with
  | some d, some e => d.lt e
  | _, _ => False

instance DateBefore.decidable (s t : String) : Decidable (DateBefore s t) := by
  unfold DateBefore
  split <;> exact inferInstance

/-- A raw record with every optional field absent. -/
def bareRecord : RawHistoryRecord :=
  ⟨"r1", "u1", none, none, some "", none, "u2", some "Ann", "2024-03-01", .undefined⟩

/-- A session with a start date after its end date. -/
def badRangeSession : Session :=
  { Session.initial with startDate := "2024-05-01", endDate := "2024-01-01" }

/-- A remote call that resolves with no record. -/
def emptyRemote : Filters → Outcome := fun _ => .resolved []

/-- A remote call rejected with the body message "DB timeout". -/
def timeoutRemote : Filters → Outcome := fun _ => .rejected ⟨some ⟨some "DB timeout"⟩, none⟩

/-- A remote call that resolves with one record. -/
def oneRecordRemote : Filters → Outcome := fun _ =>
  .resolved [⟨"r1", "u1", none, none, some "", none, "u2", some "Ann", "2024-03-01", .undefined⟩]

/-- A row whose `timeChanged` holds a comma. -/
def commaTimeRow : HistoryRow :=
  ⟨"r1", "u1", "Ann", "Title", "Clerk", "Manager", "u2", "Bob", "2024-03-01", "10:15:00, UTC"⟩

/-- A session showing the single row `commaTimeRow`. -/
def commaTimeSession : Session :=
  { Session.initial with arrays := [[], [commaTimeRow]], searchResults := 1 }

/-- A row dated 15 January 2024. -/
def rowJan : HistoryRow := ⟨"1", "u", "Ann", "Title", "a", "b", "v", "Bob", "2024-01-15", "09:00"⟩

/-- A row dated 1 March 2024. -/
def rowMar : HistoryRow := ⟨"2", "u", "Ann", "Title", "b", "c", "v", "Bob", "2024-03-01", "09:00"⟩

/-- A session showing three rows dated 1 March, 15 January and 10 February
2024. -/
def threeDatesSession : Session :=
  { Session.initial with
    arrays := [[], [⟨"1", "u", "Ann", "Title", "a", "b", "v", "Bob", "2024-03-01", "09:00"⟩,
                    ⟨"2", "u", "Ann", "Title", "b", "c", "v", "Bob", "2024-01-15", "09:00"⟩,
                    ⟨"3", "u", "Ann", "Title", "c", "d", "v", "Bob", "2024-02-10", "09:00"⟩]],
    searchResults := 1 }

/-! # Theorems -/

/-! ## Escaping and un-quoting -/

theorem halveQuotes_doubleQuotes (cs : List Char) : halveQuotes (doubleQuotes cs) = cs := by
  induction cs with
  | nil => rfl
  | cons c cs ih =>
    by_cases hc : c = '"'
    · subst hc
      simp [doubleQuotes, halveQuotes, ih]
    · simp only [doubleQuotes, hc, if_false]
      cases hd : doubleQuotes cs with
      | nil => rw [hd] at ih; simp [halveQuotes, ← ih]
      | cons d ds => rw [hd] at ih; simp [halveQuotes, hc, ih]

theorem unquote_quoted (cs : List Char) :
    unquote ("\"" ++ String.mk (doubleQuotes cs) ++ "\"") = String.mk cs := by
  have hdata : ("\"" ++ String.mk (doubleQuotes cs) ++ "\"").data
      = '"' :: (doubleQuotes cs ++ ['"']) := by
    simp [String.data_append]
  unfold unquote
  rw [hdata]
  simp [halveQuotes_doubleQuotes]

theorem unquote_plain (s : String) (h : '"' ∉ s.data) : unquote s = s := by
  unfold unquote
  cases hd : s.data with
  | nil => rfl
  | cons c cs =>
    have hc : c ≠ '"' := by
      intro hc
      apply h
      rw [hd, hc]
      exact List.mem_cons_self _ _
    simp [hc]

theorem needsQuoting_iff (t : String) :
    needsQuoting t = true ↔ (',' ∈ t.data ∨ '"' ∈ t.data ∨ '\n' ∈ t.data) := by
  simp [needsQuoting, or_assoc]

theorem doubleQuotes_eq_flatMap (cs : List Char) :
    doubleQuotes cs = cs.flatMap (fun c => if c = '"' then ['"', '"'] else [c]) := by
  induction cs with
  | nil => rfl
  | cons c cs ih =>
    by_cases hc : c = '"' <;> simp [doubleQuotes, hc, ih]

theorem str_truthy (s : String) : (JsVal.str s).truthy = true ↔ s ≠ "" := by
  simp [JsVal.truthy]

theorem escapeCsvValue_str (s : String) :
    escapeCsvValue (.str s)
      = some (if needsQuoting s then "\"" ++ String.mk (doubleQuotes s.data) ++ "\"" else s) := by
  by_cases hs : s = ""
  · subst hs
    decide
  · have ht : (JsVal.str s).truthy = true := (str_truthy s).2 hs
    simp only [escapeCsvValue, ht, JsVal.text]
    by_cases hq : needsQuoting s = true <;> simp [hq]

/-- C8. For every value, `escapeCsvValue` gives the empty string when the
value is falsy; otherwise, when the text of the value holds a comma, a double
quote or a line feed, that text with every double quote doubled, between one
pair of double quotes; otherwise the text unchanged. Un-quoting the result
gives back every string. -/
theorem escapeCsvValue_spec (v : JsVal) :
    (v.truthy = false → escapeCsvValue v = some "") ∧
    (∀ t, v.truthy = true → v.text = some t →
      ((',' ∈ t.data ∨ '"' ∈ t.data ∨ '\n' ∈ t.data) →
        escapeCsvValue v = some ("\"" ++
          String.mk (t.data.flatMap (fun c => if c = '"' then ['"', '"'] else [c])) ++ "\"")) ∧
      (¬ (',' ∈ t.data ∨ '"' ∈ t.data ∨ '\n' ∈ t.data) → escapeCsvValue v = some t)) ∧
    (∀ s, v = .str s → (escapeCsvValue v).map unquote = some s) := by
  refine ⟨?_, ?_, ?_⟩
  · intro h
    simp [escapeCsvValue, h]
  · intro t ht htext
    constructor
    · intro hq
      have hq2 := (needsQuoting_iff t).2 hq
      simp [escapeCsvValue, ht, htext, hq2, doubleQuotes_eq_flatMap]
    · intro hq
      have hq2 : needsQuoting t = false := by
        cases h : needsQuoting t with
        | false => rfl
        | true => exact absurd ((needsQuoting_iff t).1 h) hq
      simp [escapeCsvValue, ht, htext, hq2]
  · intro s hv
    subst hv
    rw [escapeCsvValue_str]
    by_cases hq : needsQuoting s = true
    · simp only [hq, if_true, Option.map_some']
      rw [unquote_quoted]
    · have hq2 : needsQuoting s = false := by simpa using hq
      simp only [hq2, Option.map_some']
      have hno : '"' ∉ s.data := by
        intro hmem
        exact hq ((needsQuoting_iff s).2 (Or.inr (Or.inl hmem)))
      simp [unquote_plain s hno]

/-- Witness for C8 at the falsy value `null`, the text `a"b,c` and the text
`plain`. -/
theorem escapeCsvValue_spec_witness :
    escapeCsvValue .null = some "" ∧
    escapeCsvValue (.str "a\"b,c") = some "\"a\"\"b,c\"" ∧
    escapeCsvValue (.num true "42") = some "42" ∧
    (escapeCsvValue (.str "a\"b,c")).map unquote = some "a\"b,c" :=
  ⟨(escapeCsvValue_spec .null).1 (by decide),
   ((escapeCsvValue_spec (.str "a\"b,c")).2.1 "a\"b,c" (by decide) (by decide)).1 (by decide),
   ((escapeCsvValue_spec (.num true "42")).2.1 "42" (by decide) (by decide)).2 (by decide),
   (escapeCsvValue_spec (.str "a\"b,c")).2.2 "a\"b,c" rfl⟩

/-! ## Record transformation -/

theorem orElse_of_nonempty (raw : Option String) (fallback v : String)
    (hv : raw = some v) (hne : v ≠ "") : orElse raw fallback = v := by
  subst hv
  simp [orElse, hne]

theorem orElse_of_absent (raw : Option String) (fallback : String)
    (h : raw = none ∨ raw = some "") : orElse raw fallback = fallback := by
  rcases h with h | h <;> subst h <;> simp [orElse]

/-- C2. The row made from a raw record has `userName` and `changedByName`
equal to the raw value when that is a non-empty string and to "Unknown User"
otherwise, `changedField` likewise with "Unknown Field", `oldValue` and
`newValue` likewise with the empty string, `timeChanged` equal to the raw
string, and empty when the raw value is absent; `recordId`, `userId`,
`changedBy` and `dateChanged` are passed through. All of them are strings. -/
theorem transformRecord_spec (record : RawHistoryRecord) :
    (∀ v, record.userName = some v → v ≠ "" → (transformRecord record).userName = v) ∧
    ((record.userName = none ∨ record.userName = some "") →
      (transformRecord record).userName = "Unknown User") ∧
    (∀ v, record.changedByName = some v → v ≠ "" →
      (transformRecord record).changedByName = v) ∧
    ((record.changedByName = none ∨ record.changedByName = some "") →
      (transformRecord record).changedByName = "Unknown User") ∧
    (∀ v, record.changedField = some v → v ≠ "" → (transformRecord record).changedField = v) ∧
    ((record.changedField = none ∨ record.changedField = some "") →
      (transformRecord record).changedField = "Unknown Field") ∧
    (∀ v, record.oldValue = some v → v ≠ "" → (transformRecord record).oldValue = v) ∧
    ((record.oldValue = none ∨ record.oldValue = some "") →
      (transformRecord record).oldValue = "") ∧
    (∀ v, record.newValue = some v → v ≠ "" → (transformRecord record).newValue = v) ∧
    ((record.newValue = none ∨ record.newValue = some "") →
      (transformRecord record).newValue = "") ∧
    (∀ t, record.timeChanged = .str t → (transformRecord record).timeChanged = t) ∧
    ((record.timeChanged = .undefined ∨ record.timeChanged = .null) →
      (transformRecord record).timeChanged = "") ∧
    (transformRecord record).recordId = record.recordId ∧
    (transformRecord record).userId = record.userId ∧
    (transformRecord record).changedBy = record.changedBy ∧
    (transformRecord record).dateChanged = record.dateChanged := by
  refine ⟨orElse_of_nonempty _ _, orElse_of_absent _ _, orElse_of_nonempty _ _,
    orElse_of_absent _ _, orElse_of_nonempty _ _, orElse_of_absent _ _,
    orElse_of_nonempty _ _, orElse_of_absent _ _, orElse_of_nonempty _ _,
    orElse_of_absent _ _, ?_, ?_, rfl, rfl, rfl, rfl⟩
  · intro t ht
    simp only [transformRecord, ht, formatTime]
    by_cases h : t = ""
    · subst h; rfl
    · simp [JsVal.truthy, h]
  · intro h
    rcases h with h | h <;> simp [transformRecord, h, formatTime, JsVal.truthy]

/-- Witness for C2 at a record without `userName`, with an empty `oldValue`
and with `changedByName` "Ann". -/
theorem transformRecord_spec_witness :
    (transformRecord bareRecord).userName = "Unknown User" ∧
    (transformRecord bareRecord).changedByName = "Ann" ∧
    (transformRecord bareRecord).oldValue = "" ∧
    (transformRecord bareRecord).timeChanged = "" :=
  ⟨(transformRecord_spec bareRecord).2.1 (Or.inl rfl),
   (transformRecord_spec bareRecord).2.2.1 "Ann" rfl (by decide),
   (transformRecord_spec bareRecord).2.2.2.2.2.2.2.1 (Or.inr rfl),
   (transformRecord_spec bareRecord).2.2.2.2.2.2.2.2.2.2.2.1 (Or.inl rfl)⟩

/-! ## The search -/

theorem dateRangeInvalid_iff (s : Session) :
    s.dateRangeInvalid = true ↔
      (s.startDate ≠ "" ∧ s.endDate ≠ "" ∧ jsStrGt s.startDate s.endDate = true) := by
  simp [Session.dateRangeInvalid, and_assoc]

theorem rows_assignRows (s : Session) (rows : List HistoryRow) :
    (s.assignRows rows).rows = rows := by
  simp [Session.assignRows, Session.rows, List.getD_eq_getElem?_getD]

/-- The session after the first three assignments of `searchHistory`. -/
theorem searchHistory_of_invalid (s : Session) (remote : Filters → Outcome)
    (h : s.dateRangeInvalid = true) :
    searchHistory s remote
      = { showError { s with isSearching := true, errorMessage := "", hasSearched := true }
            "Start date cannot be after end date" with isSearching := false } := by
  have hv : Session.dateRangeInvalid
      { s with isSearching := true, errorMessage := "", hasSearched := true } = true := h
  simp only [searchHistory, hv, if_true]

theorem searchHistory_of_valid (s : Session) (remote : Filters → Outcome)
    (h : s.dateRangeInvalid = false) :
    searchHistory s remote
      = match remote s.filters with
        | .resolved result =>
          onResolved { s with isSearching := true, errorMessage := "", hasSearched := true,
                              calls := s.calls ++ [s.filters] } result
        | .rejected error =>
          onRejected { s with isSearching := true, errorMessage := "", hasSearched := true,
                              calls := s.calls ++ [s.filters] } error := by
  have hv : Session.dateRangeInvalid
      { s with isSearching := true, errorMessage := "", hasSearched := true } = false := h
  simp only [searchHistory, hv]
  rfl

theorem onResolved_eq (s : Session) (result : List RawHistoryRecord) :
    onResolved s result
      = showToast { s.assignRows (result.map transformRecord) with isSearching := false }
          (if result = [] then "No Results" else "Success")
          (if result = [] then "No history records found matching your criteria."
            else "Found " ++ toString result.length ++ " history records.")
          (if result = [] then "info" else "success") := by
  have hrows : (Session.rows { s.assignRows (result.map transformRecord) with
      isSearching := false }) = result.map transformRecord := rows_assignRows s _
  unfold onResolved
  simp only [hrows, List.length_map]
  cases result with
  | nil => rfl
  | cons r rs => simp

/-- C4. When both dates are set and the start date is greater than the end
date as a string, `searchHistory` makes no remote call, sets `errorMessage`
to "Start date cannot be after end date", raises one error toast, ends with
`isSearching` false and leaves `searchResults` as it was; in every other state
it calls the remote search once, with the six filter values. -/
theorem searchHistory_validation (s : Session) (remote : Filters → Outcome) :
    ((s.startDate ≠ "" ∧ s.endDate ≠ "" ∧ jsStrGt s.startDate s.endDate = true) →
      (searchHistory s remote).calls = s.calls ∧
      (searchHistory s remote).errorMessage = "Start date cannot be after end date" ∧
      (searchHistory s remote).toasts
        = s.toasts ++ [⟨"Error", "Start date cannot be after end date", "error"⟩] ∧
      (searchHistory s remote).isSearching = false ∧
      (searchHistory s remote).searchResults = s.searchResults ∧
      (searchHistory s remote).arrays = s.arrays) ∧
    (¬ (s.startDate ≠ "" ∧ s.endDate ≠ "" ∧ jsStrGt s.startDate s.endDate = true) →
      (searchHistory s remote).calls = s.calls ++
        [⟨s.selectedTargetUser, s.selectedChangedByUser, s.selectedField, s.startDate,
          s.endDate, s.recordLimit⟩]) := by
  constructor
  · intro h
    rw [searchHistory_of_invalid s remote ((dateRangeInvalid_iff s).2 h)]
    exact ⟨rfl, rfl, rfl, rfl, rfl, rfl⟩
  · intro h
    have hv : s.dateRangeInvalid = false := by
      cases hb : s.dateRangeInvalid with
      | false => rfl
      | true => exact absurd ((dateRangeInvalid_iff s).1 hb) h
    rw [searchHistory_of_valid s remote hv]
    cases remote s.filters with
    | resolved result => simp only [onResolved_eq]; rfl
    | rejected error => rfl

/-- Witness for C4 at the dates 2024-05-01 and 2024-01-01, and at the
initial session. -/
theorem searchHistory_validation_witness :
    ((searchHistory badRangeSession emptyRemote).calls = [] ∧
      (searchHistory badRangeSession emptyRemote).errorMessage
        = "Start date cannot be after end date" ∧
      (searchHistory badRangeSession emptyRemote).toasts
        = [⟨"Error", "Start date cannot be after end date", "error"⟩] ∧
      (searchHistory badRangeSession emptyRemote).isSearching = false ∧
      (searchHistory badRangeSession emptyRemote).searchResults = 0 ∧
      (searchHistory badRangeSession emptyRemote).arrays = [[]]) ∧
    (searchHistory Session.initial emptyRemote).calls
      = [⟨"", "", "", "", "", .num true "100"⟩] :=
  ⟨(searchHistory_validation badRangeSession emptyRemote).1 (by decide),
   (searchHistory_validation Session.initial emptyRemote).2 (by decide)⟩

/-- C5. When the remote search is rejected, the session ends with
`isSearching` false and `errorMessage` equal to "Search failed: " followed by
the message of the body when that is present and non-empty, else by the
message of the rejection when that is present and non-empty, else by "Unknown
error occurred". -/
theorem searchHistory_rejected (s : Session) (remote : Filters → Outcome) (error : Rejection)
    (hvalid : s.dateRangeInvalid = false) (hreject : remote s.filters = .rejected error) :
    (searchHistory s remote).isSearching = false ∧
    (∀ m, error.body = some ⟨some m⟩ → m ≠ "" →
      (searchHistory s remote).errorMessage = "Search failed: " ++ m) ∧
    (¬ (∃ m, error.body = some ⟨some m⟩ ∧ m ≠ "") → ∀ m, error.message = some m → m ≠ "" →
      (searchHistory s remote).errorMessage = "Search failed: " ++ m) ∧
    (¬ (∃ m, error.body = some ⟨some m⟩ ∧ m ≠ "") → ¬ (∃ m, error.message = some m ∧ m ≠ "") →
      (searchHistory s remote).errorMessage = "Search failed: Unknown error occurred") := by
  have hmsg : (searchHistory s remote).errorMessage
      = "Search failed: " ++ rejectionMessage error := by
    rw [searchHistory_of_valid s remote hvalid, hreject]
    rfl
  have hfall : ¬ (∃ m, error.body = some ⟨some m⟩ ∧ m ≠ "") →
      rejectionMessage error = orElse error.message "Unknown error occurred" := by
    intro hno
    unfold rejectionMessage
    split
    · next m hb =>
      by_cases hm : m = ""
      · simp [hm]
      · exact absurd ⟨m, hb, hm⟩ hno
    · rfl
  refine ⟨?_, ?_, ?_, ?_⟩
  · rw [searchHistory_of_valid s remote hvalid, hreject]
    rfl
  · intro m hb hm
    rw [hmsg]
    simp [rejectionMessage, hb, hm]
  · intro hno m hmsg2 hm
    rw [hmsg, hfall hno]
    simp [orElse, hmsg2, hm]
  · intro hno hno2
    rw [hmsg, hfall hno]
    cases hem : error.message with
    | none => rfl
    | some m =>
      by_cases hm : m = ""
      · simp [orElse, hm]
      · exact absurd ⟨m, hem, hm⟩ hno2

/-- Witness for C5: a rejection whose body holds the message "DB timeout"
gives "Search failed: DB timeout". -/
theorem searchHistory_rejected_witness :
    (searchHistory Session.initial timeoutRemote).errorMessage = "Search failed: DB timeout" :=
  (searchHistory_rejected Session.initial timeoutRemote ⟨some ⟨some "DB timeout"⟩, none⟩
    (by decide) rfl).2.1 "DB timeout" rfl (by decide)

/-- C6. When the date range is valid and the remote search resolves with a
list of records, one toast is raised and it is no error: an "info" toast for
the empty list and a "success" toast telling the number of rows otherwise;
afterwards `errorMessage` is empty, `isSearching` is false and `searchResults`
holds the row of each record, in the order of the records. -/
theorem searchHistory_resolved (s : Session) (remote : Filters → Outcome)
    (result : List RawHistoryRecord)
    (hvalid : s.dateRangeInvalid = false) (hresolve : remote s.filters = .resolved result) :
    (∃ t, (searchHistory s remote).toasts = s.toasts ++ [t] ∧ t.variant ≠ "error" ∧
      (result = [] → t.variant = "info") ∧
      (result ≠ [] → t.variant = "success" ∧
        t.message = "Found " ++ toString result.length ++ " history records.")) ∧
    (searchHistory s remote).errorMessage = "" ∧
    (searchHistory s remote).isSearching = false ∧
    (searchHistory s remote).rows = result.map transformRecord ∧
    (searchHistory s remote).rows.length = result.length := by
  have hs : searchHistory s remote
      = onResolved { s with isSearching := true, errorMessage := "", hasSearched := true,
                            calls := s.calls ++ [s.filters] } result := by
    rw [searchHistory_of_valid s remote hvalid, hresolve]
  have hrows : (searchHistory s remote).rows = result.map transformRecord := by
    rw [hs, onResolved_eq]
    exact rows_assignRows _ _
  refine ⟨⟨⟨if result = [] then "No Results" else "Success",
      if result = [] then "No history records found matching your criteria."
        else "Found " ++ toString result.length ++ " history records.",
      if result = [] then "info" else "success"⟩, ?_, ?_, ?_, ?_⟩, ?_, ?_, hrows, ?_⟩
  · rw [hs, onResolved_eq]
    rfl
  · by_cases h : result = [] <;> simp [h]
  · intro h
    simp [h]
  · intro h
    simp [h]
  · rw [hs, onResolved_eq]
    rfl
  · rw [hs, onResolved_eq]
    rfl
  · rw [hrows, List.length_map]

/-- Witness for C6 at the initial session, with an empty result and with a
result of one record. -/
theorem searchHistory_resolved_witness :
    (searchHistory Session.initial emptyRemote).rows = [] ∧
    (searchHistory Session.initial oneRecordRemote).rows.length = 1 :=
  ⟨(searchHistory_resolved Session.initial emptyRemote [] (by decide) rfl).2.2.2.1,
   (searchHistory_resolved Session.initial oneRecordRemote _ (by decide) rfl).2.2.2.2⟩

/-! ## The export -/

theorem csvRow_isSome (row : HistoryRow) : ∃ line, csvRow row = some line := by
  simp only [csvRow, escapeCsvValue_str]
  exact ⟨_, rfl⟩

theorem appendRows_extends (rows : List HistoryRow) (csv : String) :
    ∃ body, appendRows csv rows = some (csv ++ body) := by
  induction rows generalizing csv with
  | nil => exact ⟨"", by simp [appendRows]⟩
  | cons row rest ih =>
    obtain ⟨line, hline⟩ := csvRow_isSome row
    obtain ⟨body, hbody⟩ := ih (csv ++ line ++ "\n")
    refine ⟨line ++ "\n" ++ body, ?_⟩
    simp only [appendRows, hline]
    rw [hbody]
    simp only [String.append_assoc]

set_option maxRecDepth 100000 in
/-- C1, at a row whose `timeChanged` is "10:15:00, UTC": the CSV text
`exportResults` downloads reads back as the header record and a record of
eight fields, not the seven values of the row. -/
theorem exportResults_unescaped_time :
    (exportResults commaTimeSession).2.bind parseCsv
      = some [headers, ["Ann", "Title", "Clerk", "Manager", "Bob", "2024-03-01", "10:15:00",
                        " UTC"]] ∧
    (exportResults commaTimeSession).2.bind parseCsv
      ≠ some (headers :: commaTimeSession.rows.map HistoryRow.exported) := by
  decide

/-- C7 as stated fails: exporting an empty row sequence produces no CSV
text, so not the header line. -/
theorem exportResults_empty_no_csv :
    Session.initial.rows = [] ∧
    (exportResults Session.initial).2
      ≠ some "User,Field Changed,Old Value,New Value,Changed By,Date Changed,Time Changed\n" := by
  decide

/-- C7, amended. Exporting an empty row sequence produces no CSV text: a
"No Data" warning toast is raised and nothing is downloaded. The text
exported for a non-empty row sequence begins with the header line "User,Field
Changed,Old Value,New Value,Changed By,Date Changed,Time Changed" followed by
a newline. -/
theorem exportResults_header (s : Session) :
    (s.rows = [] →
      exportResults s = (showToast s "No Data" "No results to export." "warning", none)) ∧
    (s.rows ≠ [] → ∃ body, (exportResults s).2 = some
      ("User,Field Changed,Old Value,New Value,Changed By,Date Changed,Time Changed\n" ++ body))
    := by
  constructor
  · intro h
    simp [exportResults, h]
  · intro h
    have hlen : s.rows.length ≠ 0 := by
      intro h0
      exact h (List.length_eq_zero.1 h0)
    obtain ⟨body, hbody⟩ := appendRows_extends s.rows (joinComma headers ++ "\n")
    refine ⟨body, ?_⟩
    have hcsv : csvContent s.rows = some (joinComma headers ++ "\n" ++ body) := hbody
    simp only [exportResults, if_neg hlen, hcsv]
    rfl

/-- Witness for C7, amended, at the initial session and at a session of one
row. -/
theorem exportResults_header_witness :
    exportResults Session.initial
      = (showToast Session.initial "No Data" "No results to export." "warning", none) ∧
    (∃ body, (exportResults commaTimeSession).2 = some
      ("User,Field Changed,Old Value,New Value,Changed By,Date Changed,Time Changed\n" ++ body)) :=
  ⟨(exportResults_header Session.initial).1 (by decide),
   (exportResults_header commaTimeSession).2 (by decide)⟩

/-! ## The comparator -/

theorem char_range (c : Char) : c.toNat < 0xD800 ∨ (0xDFFF < c.toNat ∧ c.toNat < 0x110000) := by
  have := c.valid
  simp [UInt32.isValidChar, Nat.isValidChar] at this
  exact this

theorem char_eq_of_toNat (c d : Char) (h : c.toNat = d.toNat) : c = d := by
  rw [← Char.ofNat_toNat c, ← Char.ofNat_toNat d, h]

theorem utf16_injective (a b : List Char) (h : utf16 a = utf16 b) : a = b := by
  induction a generalizing b with
  | nil =>
    cases b with
    | nil => rfl
    | cons d ds =>
      exfalso
      simp only [utf16, utf16Units] at h
      split at h <;> simp at h
  | cons c cs ih =>
    cases b with
    | nil =>
      exfalso
      simp only [utf16, utf16Units] at h
      split at h <;> simp at h
    | cons d ds =>
      have hc := char_range c
      have hd := char_range d
      simp only [utf16, utf16Units] at h
      split at h <;> split at h
      · simp only [List.singleton_append, List.cons.injEq] at h
        rw [char_eq_of_toNat c d h.1, ih ds h.2]
      · simp only [List.singleton_append, List.cons_append, List.nil_append,
          List.cons.injEq] at h
        omega
      · simp only [List.singleton_append, List.cons_append, List.nil_append,
          List.cons.injEq] at h
        omega
      · simp only [List.cons_append, List.nil_append, List.cons.injEq] at h
        have : c.toNat = d.toNat := by omega
        rw [char_eq_of_toNat c d this, ih ds h.2.2]

theorem unitsLt_asymm (a b : List Nat) (h : unitsLt a b = true) : unitsLt b a = false := by
  induction a generalizing b with
  | nil =>
    cases b with
    | nil => simp [unitsLt] at h
    | cons y ys => simp [unitsLt]
  | cons x xs ih =>
    cases b with
    | nil => simp [unitsLt] at h
    | cons y ys =>
      simp only [unitsLt] at h ⊢
      by_cases h1 : x < y
      · have h2 : ¬ y < x := by omega
        simp [h1, h2]
      · by_cases h2 : y < x
        · simp [h1, h2] at h
        · simp only [h1, h2, if_false] at h ⊢
          exact ih ys h

theorem unitsLt_total (a b : List Nat) (h : a ≠ b) : unitsLt a b = true ∨ unitsLt b a = true := by
  induction a generalizing b with
  | nil =>
    cases b with
    | nil => exact absurd rfl h
    | cons y ys => left; simp [unitsLt]
  | cons x xs ih =>
    cases b with
    | nil => right; simp [unitsLt]
    | cons y ys =>
      simp only [unitsLt]
      by_cases h1 : x < y
      · left; simp [h1]
      · by_cases h2 : y < x
        · right; simp [h2]
        · have hxy : x = y := by omega
          subst hxy
          have hne : xs ≠ ys := fun e => h (by rw [e])
          simp only [h1, if_false]
          exact ih ys hne

theorem unitsLt_irrefl (a : List Nat) : unitsLt a a = false := by
  induction a with
  | nil => rfl
  | cons x xs ih => simp [unitsLt, ih]

theorem jsStrLt_asymm (a b : String) (h : jsStrLt a b = true) : jsStrLt b a = false :=
  unitsLt_asymm _ _ h

theorem jsStrLt_irrefl (a : String) : jsStrLt a a = false := unitsLt_irrefl _

theorem jsStrLt_total (a b : String) (h : a ≠ b) : jsStrLt a b = true ∨ jsStrLt b a = true := by
  apply unitsLt_total
  intro e
  exact h (String.ext (utf16_injective _ _ e))

theorem SortKey.lt_irrefl (k : SortKey) : k.lt k = false := by
  cases k with
  | text s => exact jsStrLt_irrefl s
  | date t => cases t <;> simp [SortKey.lt]

theorem SortKey.gt_eq_lt (a b : SortKey) : a.gt b = b.lt a := by
  cases a with
  | text s => cases b <;> simp [SortKey.gt, SortKey.lt, jsStrGt]
  | date t =>
    cases b with
    | text s => cases t <;> simp [SortKey.gt, SortKey.lt]
    | date u => cases t <;> cases u <;> simp [SortKey.gt, SortKey.lt]

theorem orElse_empty (v : Option String) : orElse v "" = v.getD "" := by
  cases v with
  | none => rfl
  | some s =>
    by_cases h : s = ""
    · subst h; rfl
    · simp [orElse, h]

theorem get_unknown (row : HistoryRow) (column : String)
    (h : column ∉ ["recordId", "userId", "userName", "changedField", "oldValue", "newValue",
      "changedBy", "changedByName", "dateChanged", "timeChanged"]) :
    row.get column = none := by
  simp only [List.mem_cons, List.mem_singleton, List.not_mem_nil, or_false, not_or] at h
  simp [HistoryRow.get, h]

theorem compareRows_asc (legacy : String → Option Int) (sortedBy : String) (a b : HistoryRow) :
    compareRows legacy sortedBy "asc" a b
      = if (sortKey legacy sortedBy a).gt (sortKey legacy sortedBy b) then 1 else -1 := by
  simp [compareRows]

theorem compareRows_other (legacy : String → Option Int) (sortedBy sortDirection : String)
    (a b : HistoryRow) (h : sortDirection ≠ "asc") :
    compareRows legacy sortedBy sortDirection a b
      = if (sortKey legacy sortedBy a).lt (sortKey legacy sortedBy b) then 1 else -1 := by
  simp [compareRows, h]

/-- C9. The comparator of `handleSort` returns 1 or -1, never 0; a missing
or empty column value counts as the empty string; ascending it returns 1
exactly when the key of `a` is greater than the key of `b`, for any other
direction exactly when it is less; for equal keys, and for any two rows when
the column is unknown, it returns -1 both ways; for distinct comparable keys
the descending result is the negation of the ascending one. -/
theorem compareRows_spec (legacy : String → Option Int) (sortedBy sortDirection : String)
    (a b : HistoryRow) :
    (compareRows legacy sortedBy sortDirection a b = 1 ∨
      compareRows legacy sortedBy sortDirection a b = -1) ∧
    compareRows legacy sortedBy sortDirection a b ≠ 0 ∧
    sortKey legacy sortedBy a
      = (if sortedBy = "dateChanged" then SortKey.date (dateParse legacy ((a.get sortedBy).getD ""))
         else SortKey.text ((a.get sortedBy).getD "")) ∧
    (sortDirection = "asc" →
      (compareRows legacy sortedBy sortDirection a b = 1 ↔
        (sortKey legacy sortedBy a).gt (sortKey legacy sortedBy b) = true) ∧
      (compareRows legacy sortedBy sortDirection a b = -1 ↔
        (sortKey legacy sortedBy a).gt (sortKey legacy sortedBy b) = false)) ∧
    (sortDirection ≠ "asc" →
      (compareRows legacy sortedBy sortDirection a b = 1 ↔
        (sortKey legacy sortedBy a).lt (sortKey legacy sortedBy b) = true) ∧
      (compareRows legacy sortedBy sortDirection a b = -1 ↔
        (sortKey legacy sortedBy a).lt (sortKey legacy sortedBy b) = false)) ∧
    (sortKey legacy sortedBy a = sortKey legacy sortedBy b →
      compareRows legacy sortedBy sortDirection a b = -1 ∧
      compareRows legacy sortedBy sortDirection b a = -1) ∧
    (sortedBy ∉ ["recordId", "userId", "userName", "changedField", "oldValue", "newValue",
        "changedBy", "changedByName", "dateChanged", "timeChanged"] →
      compareRows legacy sortedBy sortDirection a b = -1 ∧
      compareRows legacy sortedBy sortDirection b a = -1) ∧
    (sortKey legacy sortedBy a ≠ sortKey legacy sortedBy b →
      sortKey legacy sortedBy a ≠ .date none → sortKey legacy sortedBy b ≠ .date none →
      compareRows legacy sortedBy "desc" a b = - compareRows legacy sortedBy "asc" a b) := by
  have heq : ∀ x y : HistoryRow, sortKey legacy sortedBy x = sortKey legacy sortedBy y →
      compareRows legacy sortedBy sortDirection x y = -1 := by
    intro x y hk
    by_cases hd : sortDirection = "asc"
    · subst hd
      rw [compareRows_asc, hk, SortKey.gt_eq_lt, SortKey.lt_irrefl]
      rfl
    · rw [compareRows_other _ _ _ _ _ hd, hk, SortKey.lt_irrefl]
      rfl
  refine ⟨?_, ?_, ?_, ?_, ?_, ?_, ?_, ?_⟩
  · unfold compareRows
    simp only
    split <;> split <;> simp
  · unfold compareRows
    simp only
    split <;> split <;> simp
  · simp only [sortKey, orElse_empty]
  · intro hd
    subst hd
    rw [compareRows_asc]
    cases (sortKey legacy sortedBy a).gt (sortKey legacy sortedBy b) <;> simp
  · intro hd
    rw [compareRows_other _ _ _ _ _ hd]
    cases (sortKey legacy sortedBy a).lt (sortKey legacy sortedBy b) <;> simp
  · intro hk
    exact ⟨heq a b hk, heq b a hk.symm⟩
  · intro hcol
    have hk : sortKey legacy sortedBy a = sortKey legacy sortedBy b := by
      simp only [sortKey, get_unknown a sortedBy hcol, get_unknown b sortedBy hcol]
    exact ⟨heq a b hk, heq b a hk.symm⟩
  · intro hne ha hb
    rw [compareRows_asc, compareRows_other _ _ _ _ _ (by decide), SortKey.gt_eq_lt]
    by_cases hcol : sortedBy = "dateChanged"
    · simp only [sortKey, hcol, if_true] at hne ha hb ⊢
      generalize dateParse legacy (orElse (a.get "dateChanged") "") = ta at hne ha hb
      generalize dateParse legacy (orElse (b.get "dateChanged") "") = tb at hne hb
      cases ta with
      | none => exact absurd rfl ha
      | some x =>
        cases tb with
        | none => exact absurd rfl hb
        | some y =>
          have hxy : x ≠ y := fun e => hne (by rw [e])
          simp only [SortKey.lt]
          rcases lt_or_gt_of_ne hxy with h | h
          · have h2 : ¬ y < x := by omega
            simp [h, h2]
          · have h2 : ¬ x < y := by omega
            simp [h, h2]
    · simp only [sortKey, hcol, if_false] at hne ⊢
      generalize orElse (a.get sortedBy) "" = u at hne
      generalize orElse (b.get sortedBy) "" = v at hne
      have hst : u ≠ v := fun e => hne (by rw [e])
      simp only [SortKey.lt]
      rcases jsStrLt_total u v hst with h | h
      · simp [h, jsStrLt_asymm u v h]
      · simp [h, jsStrLt_asymm v u h]

/-- Witness for C9 at two rows of the same user with different dates. -/
theorem compareRows_spec_witness :
    compareRows (fun _ => none) "dateChanged" "asc" rowMar rowJan = 1 ∧
    compareRows (fun _ => none) "dateChanged" "desc" rowMar rowJan = -1 ∧
    compareRows (fun _ => none) "userName" "asc" rowMar rowJan = -1 ∧
    compareRows (fun _ => none) "userName" "asc" rowJan rowMar = -1 ∧
    compareRows (fun _ => none) "nothing" "asc" rowMar rowJan = -1 ∧
    compareRows (fun _ => none) "dateChanged" "desc" rowJan rowMar
      = - compareRows (fun _ => none) "dateChanged" "asc" rowJan rowMar :=
  ⟨((compareRows_spec (fun _ => none) "dateChanged" "asc" rowMar rowJan).2.2.2.1 rfl).1.2
      (by decide),
   ((compareRows_spec (fun _ => none) "dateChanged" "desc" rowMar rowJan).2.2.2.2.1
      (by decide)).2.2 (by decide),
   ((compareRows_spec (fun _ => none) "userName" "asc" rowMar rowJan).2.2.2.2.2.1
      (by decide)).1,
   ((compareRows_spec (fun _ => none) "userName" "asc" rowMar rowJan).2.2.2.2.2.1
      (by decide)).2,
   ((compareRows_spec (fun _ => none) "nothing" "asc" rowMar rowJan).2.2.2.2.2.2.1
      (by decide)).1,
   (compareRows_spec (fun _ => none) "dateChanged" "asc" rowJan rowMar).2.2.2.2.2.2.2
      (by decide) (by decide) (by decide)⟩

/-! ## The sort -/

theorem insertOrdered_perm {α : Type} (cmp : α → α → Int) (x : α) (l : List α) :
    (insertOrdered cmp x l).Perm (x :: l) := by
  induction l with
  | nil => exact List.Perm.refl _
  | cons y ys ih =>
    simp only [insertOrdered]
    split
    · exact List.Perm.refl _
    · exact (List.Perm.cons y ih).trans (List.Perm.swap x y ys)

theorem arraySort_perm {α : Type} (cmp : α → α → Int) (l : List α) :
    (arraySort cmp l).Perm l := by
  induction l with
  | nil => exact List.Perm.refl _
  | cons x xs ih =>
    exact (insertOrdered_perm cmp x _).trans (List.Perm.cons x ih)

theorem getD_append_length {α : Type} (l : List α) (x d : α) :
    (l ++ [x]).getD l.length d = x := by
  simp [List.getD_eq_getElem?_getD]

theorem set_append_length {α : Type} (l : List α) (x y : α) :
    (l ++ [x]).set l.length y = l ++ [y] := by
  simp [List.set_append]

theorem handleSort_eq (legacy : String → Option Int) (s : Session) (event : SortEvent) :
    handleSort legacy s event
      = { s with sortedBy := event.fieldName, sortDirection := event.sortDirection,
                 arrays := s.arrays ++
                   [arraySort (compareRows legacy event.fieldName event.sortDirection) s.rows],
                 searchResults := s.arrays.length } := by
  simp only [handleSort, getD_append_length, set_append_length]
  rfl

theorem handleSort_rows (legacy : String → Option Int) (s : Session) (event : SortEvent) :
    (handleSort legacy s event).rows
      = arraySort (compareRows legacy event.fieldName event.sortDirection) s.rows := by
  rw [handleSort_eq]
  exact getD_append_length _ _ _

theorem handleSort_perm (legacy : String → Option Int) (s : Session) (event : SortEvent) :
    (handleSort legacy s event).rows.Perm s.rows := by
  rw [handleSort_rows]
  exact arraySort_perm _ _

/-- C10. For every row sequence, column and direction, `handleSort` makes
`searchResults` a permutation of the previous sequence, of the same length and
with every row as often as before; the arrays that existed, the previous
sequence among them, are left as they were; no state other than `sortedBy`,
`sortDirection` and `searchResults` changes, no toast is raised and no remote
call is made. -/
theorem handleSort_frame (legacy : String → Option Int) (s : Session) (event : SortEvent) :
    (handleSort legacy s event).rows.Perm s.rows ∧
    (handleSort legacy s event).rows.length = s.rows.length ∧
    (∀ row, (handleSort legacy s event).rows.count row = s.rows.count row) ∧
    (handleSort legacy s event).arrays = s.arrays ++ [(handleSort legacy s event).rows] ∧
    (handleSort legacy s event).arrays.getD s.searchResults [] = s.rows ∧
    (handleSort legacy s event).sortedBy = event.fieldName ∧
    (handleSort legacy s event).sortDirection = event.sortDirection ∧
    (handleSort legacy s event).userOptions = s.userOptions ∧
    (handleSort legacy s event).fieldOptions = s.fieldOptions ∧
    (handleSort legacy s event).isSearching = s.isSearching ∧
    (handleSort legacy s event).errorMessage = s.errorMessage ∧
    (handleSort legacy s event).selectedTargetUser = s.selectedTargetUser ∧
    (handleSort legacy s event).selectedChangedByUser = s.selectedChangedByUser ∧
    (handleSort legacy s event).selectedField = s.selectedField ∧
    (handleSort legacy s event).startDate = s.startDate ∧
    (handleSort legacy s event).endDate = s.endDate ∧
    (handleSort legacy s event).recordLimit = s.recordLimit ∧
    (handleSort legacy s event).hasSearched = s.hasSearched ∧
    (handleSort legacy s event).toasts = s.toasts ∧
    (handleSort legacy s event).calls = s.calls := by
  have hperm : (handleSort legacy s event).rows.Perm s.rows := handleSort_perm legacy s event
  refine ⟨hperm, hperm.length_eq, fun row => hperm.count_eq row, ?_, ?_, ?_⟩
  · rw [handleSort_rows, handleSort_eq]
  · rw [handleSort_eq]
    show (s.arrays ++ [_]).getD s.searchResults [] = s.arrays.getD s.searchResults []
    rcases Nat.lt_trichotomy s.searchResults s.arrays.length with h | h | h
    · exact List.getD_append _ _ _ _ h
    · have hrows : s.rows = [] := by
        simp [Session.rows, List.getD_eq_getElem?_getD, h]
      rw [hrows, h, getD_append_length]
      simp [arraySort, List.getD_eq_getElem?_getD]
    · have h1 : s.arrays.length ≤ s.searchResults := Nat.le_of_lt h
      simp only [List.getD_eq_getElem?_getD]
      rw [List.getElem?_append_right h1]
      have h2 : [arraySort (compareRows legacy event.fieldName event.sortDirection) s.rows][
          s.searchResults - s.arrays.length]? = none := by
        apply List.getElem?_eq_none
        simp only [List.length_singleton]
        omega
      rw [h2, List.getElem?_eq_none h1]
  · rw [handleSort_eq]
    exact ⟨rfl, rfl, rfl, rfl, rfl, rfl, rfl, rfl, rfl, rfl, rfl, rfl, rfl, rfl, rfl⟩

/-! ## The calendar -/

theorem dayFromYear_succ (y : Nat) :
    dayFromYear (y + 1) = dayFromYear y + 365 + (if isLeap y then 1 else 0) := by
  unfold dayFromYear isLeap
  by_cases h4 : y % 4 = 0 <;> by_cases h100 : y % 100 = 0 <;> by_cases h400 : y % 400 = 0 <;>
    simp [h4, h100, h400] <;> omega

theorem dayFromYear_mono (a b : Nat) (h : a ≤ b) : dayFromYear a ≤ dayFromYear b := by
  unfold dayFromYear
  omega

theorem daysBeforeMonth_step (y m m2 : Nat) (hm : 1 ≤ m) (h : m < m2) (h2 : m2 ≤ 12) :
    daysBeforeMonth y m + daysInMonth y m ≤ daysBeforeMonth y m2 := by
  cases hL : isLeap y <;> interval_cases m2 <;> interval_cases m <;>
    simp [daysBeforeMonth, daysInMonth, hL]

theorem dayOfYear_bound (y m d : Nat) (hm : 1 ≤ m) (h2 : m ≤ 12) (hd : d ≤ daysInMonth y m) :
    daysBeforeMonth y m + d ≤ 365 + (if isLeap y then 1 else 0) := by
  cases hL : isLeap y <;> interval_cases m <;>
    simp only [daysBeforeMonth, daysInMonth, hL, Bool.false_eq_true, if_false, if_true]
      at hd ⊢ <;> omega

theorem timeValue_lt_of_lt (a b : CalendarDate) (ha : a.Valid) (hb : b.Valid) (h : a.lt b) :
    timeValue a < timeValue b := by
  obtain ⟨_, ham1, ham2, had1, had2⟩ := ha
  obtain ⟨_, hbm1, hbm2, hbd1, hbd2⟩ := hb
  unfold timeValue
  rcases h with hy | ⟨hy, hm | ⟨hm, hd⟩⟩
  · have h1 := dayFromYear_succ a.year
    have h2 := dayFromYear_mono (a.year + 1) b.year hy
    have h3 := dayOfYear_bound a.year a.month a.day ham1 ham2 had2
    cases hL : isLeap a.year <;> simp only [hL] at h1 h3 <;> simp at h1 h3 <;> omega
  · have h1 := daysBeforeMonth_step a.year a.month b.month ham1 hm hbm2
    rw [hy] at h1 had2 ⊢
    omega
  · rw [hy, hm]
    omega

theorem digitVal_some (c : Char) (a : Nat) (h : digitVal c = some a) :
    a ≤ 9 ∧ c.toNat = a + 48 := by
  unfold digitVal at h
  split at h
  · simp only [Option.some.injEq] at h
    omega
  · simp at h

theorem isoDate_shape (s : String) (d : CalendarDate) (h : isoDate s = some d) :
    ∃ y1 y2 y3 y4 m1 m2 d1 d2 a b c e f g i j,
      s.data = [y1, y2, y3, y4, '-', m1, m2, '-', d1, d2] ∧
      digitVal y1 = some a ∧ digitVal y2 = some b ∧ digitVal y3 = some c ∧
      digitVal y4 = some e ∧ digitVal m1 = some f ∧ digitVal m2 = some g ∧
      digitVal d1 = some i ∧ digitVal d2 = some j ∧
      d = ⟨1000 * a + 100 * b + 10 * c + e, 10 * f + g, 10 * i + j⟩ ∧
      1 ≤ 10 * f + g ∧ 10 * f + g ≤ 12 ∧ 1 ≤ 10 * i + j ∧
      10 * i + j ≤ daysInMonth (1000 * a + 100 * b + 10 * c + e) (10 * f + g) := by
  unfold isoDate at h
  split at h
  · next y1 y2 y3 y4 m1 m2 d1 d2 hdata =>
    split at h
    · next a b c e f g i j ha hb hc he hf hg hi hj =>
      simp only at h
      split at h
      · next hv =>
        simp only [Option.some.injEq] at h
        exact ⟨y1, y2, y3, y4, m1, m2, d1, d2, a, b, c, e, f, g, i, j, hdata, ha, hb, hc, he,
          hf, hg, hi, hj, h.symm, hv.1, hv.2.1, hv.2.2.1, hv.2.2.2⟩
      · simp at h
    · simp at h
  · simp at h

theorem isoDate_valid (s : String) (d : CalendarDate) (h : isoDate s = some d) : d.Valid := by
  obtain ⟨y1, y2, y3, y4, m1, m2, d1, d2, a, b, c, e, f, g, i, j, _, ha, hb, hc, he, _, _, _,
    _, hd, h1, h2, h3, h4⟩ := isoDate_shape s d h
  have := digitVal_some _ _ ha
  have := digitVal_some _ _ hb
  have := digitVal_some _ _ hc
  have := digitVal_some _ _ he
  subst hd
  refine ⟨?_, h1, h2, h3, h4⟩
  show 1000 * a + 100 * b + 10 * c + e ≤ 9999
  omega

theorem isoDate_injective (s t : String) (d : CalendarDate)
    (hs : isoDate s = some d) (ht : isoDate t = some d) : s = t := by
  obtain ⟨y1, y2, y3, y4, m1, m2, d1, d2, a, b, c, e, f, g, i, j, hsd, ha, hb, hc, he, hf, hg,
    hi, hj, hd, _, _, _, _⟩ := isoDate_shape s d hs
  obtain ⟨y1', y2', y3', y4', m1', m2', d1', d2', a', b', c', e', f', g', i', j', htd, ha', hb',
    hc', he', hf', hg', hi', hj', hd', _, _, _, _⟩ := isoDate_shape t d ht
  have ka := digitVal_some _ _ ha
  have kb := digitVal_some _ _ hb
  have kc := digitVal_some _ _ hc
  have ke := digitVal_some _ _ he
  have kf := digitVal_some _ _ hf
  have kg := digitVal_some _ _ hg
  have ki := digitVal_some _ _ hi
  have kj := digitVal_some _ _ hj
  have ka' := digitVal_some _ _ ha'
  have kb' := digitVal_some _ _ hb'
  have kc' := digitVal_some _ _ hc'
  have ke' := digitVal_some _ _ he'
  have kf' := digitVal_some _ _ hf'
  have kg' := digitVal_some _ _ hg'
  have ki' := digitVal_some _ _ hi'
  have kj' := digitVal_some _ _ hj'
  rw [hd] at hd'
  simp only [CalendarDate.mk.injEq] at hd'
  obtain ⟨hy, hm, hdd⟩ := hd'
  have e1 : y1 = y1' := char_eq_of_toNat _ _ (by omega)
  have e2 : y2 = y2' := char_eq_of_toNat _ _ (by omega)
  have e3 : y3 = y3' := char_eq_of_toNat _ _ (by omega)
  have e4 : y4 = y4' := char_eq_of_toNat _ _ (by omega)
  have e5 : m1 = m1' := char_eq_of_toNat _ _ (by omega)
  have e6 : m2 = m2' := char_eq_of_toNat _ _ (by omega)
  have e7 : d1 = d1' := char_eq_of_toNat _ _ (by omega)
  have e8 : d2 = d2' := char_eq_of_toNat _ _ (by omega)
  apply String.ext
  rw [hsd, htd, e1, e2, e3, e4, e5, e6, e7, e8]

theorem CalendarDate.lt_or_lt_of_ne (a b : CalendarDate) (h : a ≠ b) : a.lt b ∨ b.lt a := by
  cases a with
  | mk ay am ad =>
    cases b with
    | mk y m d =>
      simp only [CalendarDate.lt]
      have hne : ¬ (ay = y ∧ am = m ∧ ad = d) := by
        intro e
        apply h
        rw [e.1, e.2.1, e.2.2]
      omega

theorem CalendarDate.lt_asymm (a b : CalendarDate) (h : a.lt b) : ¬ b.lt a := by
  simp only [CalendarDate.lt] at h ⊢
  omega

/-! ## Sorting by date -/

theorem insertOrdered_sorted {α : Type} (f : α → Int) (cmp : α → α → Int) (x : α) (l : List α)
    (hcmp : ∀ y ∈ l, (cmp x y ≤ 0 ↔ f x ≤ f y))
    (hs : l.Pairwise (fun a b => f a ≤ f b)) :
    (insertOrdered cmp x l).Pairwise (fun a b => f a ≤ f b) := by
  induction l with
  | nil => simp [insertOrdered]
  | cons y ys ih =>
    have hy := hcmp y (List.mem_cons_self _ _)
    rw [List.pairwise_cons] at hs
    simp only [insertOrdered]
    split
    · next hle =>
      have hxy : f x ≤ f y := hy.1 hle
      rw [List.pairwise_cons]
      refine ⟨?_, List.pairwise_cons.2 hs⟩
      intro z hz
      rcases List.mem_cons.1 hz with hz | hz
      · rw [hz]; exact hxy
      · exact le_trans hxy (hs.1 z hz)
    · next hle =>
      have hyx : f y ≤ f x := by
        have : ¬ f x ≤ f y := fun h => hle (hy.2 h)
        omega
      rw [List.pairwise_cons]
      refine ⟨?_, ih (fun z hz => hcmp z (List.mem_cons_of_mem _ hz)) hs.2⟩
      intro z hz
      rcases List.mem_cons.1 ((insertOrdered_perm cmp x ys).mem_iff.1 hz) with hz | hz
      · rw [hz]; exact hyx
      · exact hs.1 z hz

theorem arraySort_sorted {α : Type} (f : α → Int) (cmp : α → α → Int) (l : List α)
    (hcmp : ∀ x ∈ l, ∀ y ∈ l, (cmp x y ≤ 0 ↔ f x ≤ f y)) :
    (arraySort cmp l).Pairwise (fun a b => f a ≤ f b) := by
  induction l with
  | nil => simp [arraySort]
  | cons x xs ih =>
    simp only [arraySort]
    apply insertOrdered_sorted
    · intro y hy
      have hy2 : y ∈ xs := (arraySort_perm cmp xs).mem_iff.1 hy
      exact hcmp x (List.mem_cons_self _ _) y (List.mem_cons_of_mem _ hy2)
    · exact ih (fun a ha b hb =>
        hcmp a (List.mem_cons_of_mem _ ha) b (List.mem_cons_of_mem _ hb))

theorem get_dateChanged (row : HistoryRow) : row.get "dateChanged" = some row.dateChanged := by
  simp [HistoryRow.get]

theorem sortKey_dateChanged (legacy : String → Option Int) (row : HistoryRow) (d : CalendarDate)
    (h : isoDate row.dateChanged = some d) :
    sortKey legacy "dateChanged" row = .date (some (timeValue d)) := by
  simp [sortKey, get_dateChanged, orElse_empty, dateParse, h]

theorem dateBefore_of_le (a b : HistoryRow) (d e : CalendarDate)
    (ha : isoDate a.dateChanged = some d) (hb : isoDate b.dateChanged = some e)
    (hne : a.dateChanged ≠ b.dateChanged) (hle : timeValue d ≤ timeValue e) :
    DateBefore a.dateChanged b.dateChanged := by
  simp only [DateBefore, ha, hb]
  have hde : d ≠ e := by
    intro h
    rw [h] at ha
    exact hne (isoDate_injective _ _ e ha hb)
  rcases CalendarDate.lt_or_lt_of_ne d e hde with h | h
  · exact h
  · have := timeValue_lt_of_lt e d (isoDate_valid _ _ hb) (isoDate_valid _ _ ha) h
    omega

theorem dateBefore_asymm (s t : String) (h : DateBefore s t) : ¬ DateBefore t s := by
  intro h2
  unfold DateBefore at h h2
  cases hs : isoDate s with
  | none => simp [hs] at h
  | some d =>
    cases ht : isoDate t with
    | none => simp [hs, ht] at h
    | some e =>
      simp only [hs, ht] at h h2
      exact CalendarDate.lt_asymm _ _ h h2

/-- C3. When the rows carry pairwise distinct calendar dates in the form
`YYYY-MM-DD`, `handleSort` with column "dateChanged" and direction "asc"
leaves `searchResults` a rearrangement of the rows in strictly increasing
order of date, and with direction "desc" in exactly the reverse of that
order. -/
theorem handleSort_dateChanged (legacy : String → Option Int) (s : Session)
    (hvalid : ∀ row ∈ s.rows, (isoDate row.dateChanged).isSome = true)
    (hdistinct : (s.rows.map (fun row => row.dateChanged)).Nodup) :
    (handleSort legacy s ⟨"dateChanged", "asc"⟩).rows.Perm s.rows ∧
    (handleSort legacy s ⟨"dateChanged", "asc"⟩).rows.Pairwise
      (fun a b => DateBefore a.dateChanged b.dateChanged) ∧
    (handleSort legacy s ⟨"dateChanged", "desc"⟩).rows
      = (handleSort legacy s ⟨"dateChanged", "asc"⟩).rows.reverse := by
  have hiso : ∀ row ∈ s.rows, ∃ d, isoDate row.dateChanged = some d := by
    intro row hrow
    exact Option.isSome_iff_exists.1 (hvalid row hrow)
  have hkey : ∀ row ∈ s.rows, ∃ d, isoDate row.dateChanged = some d ∧
      sortKey legacy "dateChanged" row = .date (some (timeValue d)) := by
    intro row hrow
    obtain ⟨d, hd⟩ := hiso row hrow
    exact ⟨d, hd, sortKey_dateChanged legacy row d hd⟩
  have hf : ∀ row ∈ s.rows, ∀ d, isoDate row.dateChanged = some d →
      ((isoDate row.dateChanged).map timeValue).getD 0 = timeValue d := by
    intro row _ d hd
    simp [hd]
  have hpermA : (handleSort legacy s ⟨"dateChanged", "asc"⟩).rows.Perm s.rows :=
    handleSort_perm legacy s ⟨"dateChanged", "asc"⟩
  have hpermD : (handleSort legacy s ⟨"dateChanged", "desc"⟩).rows.Perm s.rows :=
    handleSort_perm legacy s ⟨"dateChanged", "desc"⟩
  have hneq : ∀ l : List HistoryRow, l.Perm s.rows →
      l.Pairwise (fun a b => a.dateChanged ≠ b.dateChanged) := by
    intro l hl
    have h1 : (l.map (fun row => row.dateChanged)).Nodup :=
      (hl.map _).nodup_iff.2 hdistinct
    exact List.pairwise_map.1 h1
  have hascLe : (handleSort legacy s ⟨"dateChanged", "asc"⟩).rows.Pairwise
      (fun a b => ((isoDate a.dateChanged).map timeValue).getD 0
        ≤ ((isoDate b.dateChanged).map timeValue).getD 0) := by
    rw [handleSort_rows]
    apply arraySort_sorted
    intro x hx y hy
    obtain ⟨d, hd, hkd⟩ := hkey x hx
    obtain ⟨e, he, hke⟩ := hkey y hy
    rw [hf x hx d hd, hf y hy e he, compareRows_asc, hkd, hke]
    simp only [SortKey.gt]
    by_cases h : timeValue e < timeValue d
    · simp only [h, decide_True, if_true]; omega
    · simp only [h, decide_False, Bool.false_eq_true, if_false]; omega
  have hdescLe : (handleSort legacy s ⟨"dateChanged", "desc"⟩).rows.Pairwise
      (fun a b => - ((isoDate a.dateChanged).map timeValue).getD 0
        ≤ - ((isoDate b.dateChanged).map timeValue).getD 0) := by
    rw [handleSort_rows]
    apply arraySort_sorted
      (fun (a : HistoryRow) => - ((isoDate a.dateChanged).map timeValue).getD 0)
    intro x hx y hy
    obtain ⟨d, hd, hkd⟩ := hkey x hx
    obtain ⟨e, he, hke⟩ := hkey y hy
    rw [hf x hx d hd, hf y hy e he, compareRows_other _ _ _ _ _ (by decide), hkd, hke]
    simp only [SortKey.lt]
    by_cases h : timeValue d < timeValue e
    · simp only [h, decide_True, if_true]; omega
    · simp only [h, decide_False, Bool.false_eq_true, if_false]; omega
  have hasc : (handleSort legacy s ⟨"dateChanged", "asc"⟩).rows.Pairwise
      (fun a b => DateBefore a.dateChanged b.dateChanged) := by
    refine List.Pairwise.imp_of_mem ?_ (hascLe.and (hneq _ hpermA))
    intro a b ha hb hab
    obtain ⟨d, hd⟩ := hiso a (hpermA.mem_iff.1 ha)
    obtain ⟨e, he⟩ := hiso b (hpermA.mem_iff.1 hb)
    have hle := hab.1
    rw [hf a (hpermA.mem_iff.1 ha) d hd, hf b (hpermA.mem_iff.1 hb) e he] at hle
    exact dateBefore_of_le a b d e hd he hab.2 hle
  have hdesc : (handleSort legacy s ⟨"dateChanged", "desc"⟩).rows.Pairwise
      (fun a b => DateBefore b.dateChanged a.dateChanged) := by
    refine List.Pairwise.imp_of_mem ?_ (hdescLe.and (hneq _ hpermD))
    intro a b ha hb hab
    obtain ⟨d, hd⟩ := hiso a (hpermD.mem_iff.1 ha)
    obtain ⟨e, he⟩ := hiso b (hpermD.mem_iff.1 hb)
    have hle := hab.1
    rw [hf a (hpermD.mem_iff.1 ha) d hd, hf b (hpermD.mem_iff.1 hb) e he] at hle
    exact dateBefore_of_le b a e d he hd (Ne.symm hab.2) (by omega)
  refine ⟨hpermA, hasc, ?_⟩
  exact @List.Perm.eq_of_sorted HistoryRow
    (fun a b => DateBefore b.dateChanged a.dateChanged) _ _
    (fun a b _ _ hab hba => absurd hba (dateBefore_asymm _ _ hab)) hdesc
    (List.pairwise_reverse.2 hasc) (hpermD.trans ((List.reverse_perm _).trans hpermA).symm)

set_option maxRecDepth 100000 in
/-- Witness for C3: the dates 2024-03-01, 2024-01-15, 2024-02-10 come out as
2024-01-15, 2024-02-10, 2024-03-01 ascending and as 2024-03-01, 2024-02-10,
2024-01-15 descending. -/
theorem handleSort_dateChanged_witness :
    (handleSort (fun _ => none) threeDatesSession ⟨"dateChanged", "asc"⟩).rows.map
        (fun row => row.dateChanged) = ["2024-01-15", "2024-02-10", "2024-03-01"] ∧
    (handleSort (fun _ => none) threeDatesSession ⟨"dateChanged", "desc"⟩).rows.map
        (fun row => row.dateChanged) = ["2024-03-01", "2024-02-10", "2024-01-15"] ∧
    (handleSort (fun _ => none) threeDatesSession ⟨"dateChanged", "desc"⟩).rows
      = (handleSort (fun _ => none) threeDatesSession ⟨"dateChanged", "asc"⟩).rows.reverse :=
  ⟨by decide, by decide,
   (handleSort_dateChanged (fun _ => none) threeDatesSession (by decide) (by decide)).2.2⟩

end UserHistorySearch
